import Mathlib

/-!
Verification development for the Obsidian-RAG ingestion core: the task queue
with its deduplication/priority rules, the offline durable queue, and the
adaptive batch scheduler (`InitialSyncManager`).  Numbers held in JavaScript
variables are embedded as rationals (`ℚ`) or integers; `Math.round` is
embedded as round-half-up, which is its behaviour on the values arising here,
and the non-dyadic literals 0.6, 1.4, 1.25 and 0.8 are embedded as the exact
rationals they denote (on the integer millisecond durations and integer batch
sizes that occur, the float comparisons of the source coincide with the exact
ones).  Asynchronous collaborator calls (metadata extraction, status writes,
queue admission) are embedded through explicit outcome oracles, and the
cooperative single-threaded scheduling of the source is embedded as
sequential state passing.
-/

namespace ObsidianRAG

/-- JavaScript `Math.round`: round half toward positive infinity. -/
def jsRound (q : ℚ) : ℤ := ⌊q + 1 / 2⌋

/-- The `throttling` block of `InitialSyncOptions` (InitialSyncManager.ts). -/
structure ThrottlingControls where
  minBatchSize : ℤ
  maxBatchSize : ℤ
  targetBatchDurationMs : ℚ
  throttleDelayMs : ℚ
  progressIntervalMs : ℚ
deriving DecidableEq

/-- The `defaultThrottling` constant of the `InitialSyncManager` constructor. -/
def defaultThrottling : ThrottlingControls :=
  { minBatchSize := 10
    maxBatchSize := 200
    targetBatchDurationMs := 2000
    throttleDelayMs := 0
    progressIntervalMs := 16 }

/-- `InitialSyncManager.adjustBatchSize`: the multiplicative
increase/multiplicative decrease controller.  `size` is the current
`adaptiveBatchSize`, `duration` the measured batch duration in ms, and
`processedCount` the number of files in the completed batch.  Mirrors the
source: an early return when the batch was empty or the duration is
non-positive, growth by 1.25 only when strictly under `maxBatchSize`,
shrink by 0.8 only when strictly over `minBatchSize`, both rounded and
clamped (with an inner clamp to at least 1). -/
def adjustBatchSize (t : ThrottlingControls) (duration : ℚ) (processedCount : ℕ)
    (size : ℚ) : ℚ :=
  if processedCount = 0 ∨ duration ≤ 0 then size
  else if duration < t.targetBatchDurationMs * (3 / 5) ∧ size < (t.maxBatchSize : ℚ) then
    min (t.maxBatchSize : ℚ) (max 1 ((jsRound (size * (5 / 4)) : ℤ) : ℚ))
  else if duration > t.targetBatchDurationMs * (7 / 5) ∧ size > (t.minBatchSize : ℚ) then
    max (t.minBatchSize : ℚ) (max 1 ((jsRound (size * (4 / 5)) : ℤ) : ℚ))
  else size

/-- Batch-size computation inside `getNextBatch` (`processFilesAdaptive`):
`normalizedBatchSize = min(maxBatchSize, max(minBatchSize, round(adaptiveBatchSize)))`
and `size = max(1, min(normalizedBatchSize, remaining))`. -/
def nextBatchSize (t : ThrottlingControls) (size : ℚ) (remaining : ℕ) : ℕ :=
  (max 1 (min (min t.maxBatchSize (max t.minBatchSize (jsRound size)))
    (remaining : ℤ))).toNat

/-- The sequence of batches claimed by `getNextBatch` during
`processFilesAdaptive`.  Batch claiming is synchronous in the source (no
suspension point inside `getNextBatch`), so the batches produced under any
worker interleaving are those of this sequential recursion; `traj k` is the
value of the mutable `adaptiveBatchSize` observed when the `k`-th batch is
claimed, left completely arbitrary here so that every trajectory of the
feedback controller (and every interleaving of `maxConcurrentBatches`
workers updating it) is covered. -/
def getBatches {α : Type} (t : ThrottlingControls) (traj : ℕ → ℚ) (k : ℕ) :
    List α → List (List α)
  | [] => []
  | f :: rest =>
    (f :: rest).take (nextBatchSize t (traj k) (f :: rest).length) ::
      getBatches t traj (k + 1)
        ((f :: rest).drop (nextBatchSize t (traj k) (f :: rest).length))
termination_by files => files.length
decreasing_by
  have h1 : 1 ≤ nextBatchSize t (traj k) (f :: rest).length := by
    unfold nextBatchSize
    omega
  simp only [List.length_drop, List.length_cons] at h1 ⊢
  omega

/-- A vault file as the scheduler sees it (`TFile`): full path, basename, and
modification time (`file.stat.mtime`). -/
structure VaultFile where
  path : String
  name : String
  mtime : ℕ
deriving DecidableEq

/-- The `exclusions` block of `InitialSyncOptions`. -/
structure Exclusions where
  excludedFolders : List String
  excludedFileTypes : List String
  excludedFilePrefixes : List String
  excludedFiles : List String
deriving DecidableEq

/-- A `(pattern, priority)` rule; patterns are tested as substring
containment against the path. -/
structure PriorityRule where
  pattern : String
  priority : ℤ
deriving DecidableEq

/-- The scheduler options (after constructor defaulting, so every field is
present). -/
structure InitialSyncOptions where
  batchSize : ℚ
  maxConcurrentBatches : ℕ
  priorityRules : List PriorityRule
  syncFilePath : String
  exclusions : Exclusions
  throttling : ThrottlingControls
deriving DecidableEq

/-- Does `pat` occur as a contiguous run at the head of the second list? -/
def seqIsAtHead {α : Type} [DecidableEq α] : List α → List α → Bool
  | [], _ => true
  | _ :: _, [] => false
  | a :: as, b :: bs => a = b && seqIsAtHead as bs

/-- Does `pat` occur as a contiguous run anywhere in the second list? -/
def seqOccurs {α : Type} [DecidableEq α] (pat : List α) : List α → Bool
  | [] => pat.isEmpty
  | c :: rest => seqIsAtHead pat (c :: rest) || seqOccurs pat rest

/-- JavaScript `String.prototype.includes`: substring containment. -/
def stringIncludes (s pat : String) : Bool := seqOccurs pat.toList s.toList

/-- `InitialSyncManager.getFilePriority`: priority of the first matching
rule, defaulting to 1. -/
def getFilePriority (rules : List PriorityRule) (path : String) : ℤ :=
  match rules.find? (fun r => stringIncludes path r.pattern) with
  | some r => r.priority
  | none => 1

/-- `this.options.syncFilePath || DEFAULT`: the empty string is the only
falsy `String` value after constructor defaulting. -/
def effectiveSyncFilePath (o : InitialSyncOptions) : String :=
  if o.syncFilePath = "" then "_obsidianragsync.md" else o.syncFilePath

/-- The reserved sync-metadata paths excluded both by `filterExcludedFiles`
and re-checked at the head of `processFile`. -/
def isSyncFile (o : InitialSyncOptions) (path : String) : Bool :=
  path = effectiveSyncFilePath o || path = "_obsidianragsync.md" ||
    path = "_obsidianragsync.md.backup"

/-- Folder test of `filterExcludedFiles`: the folder gets a trailing slash
before the `startsWith` test. -/
def folderMatch (folder path : String) : Bool :=
  path.startsWith (if folder.endsWith "/" then folder else folder ++ "/")

/-- `InitialSyncManager.filterExcludedFiles`. -/
def filterExcludedFiles (o : InitialSyncOptions) (files : List VaultFile) :
    List VaultFile :=
  files.filter fun f =>
    !(isSyncFile o f.path) &&
    !(o.exclusions.excludedFiles.contains f.name) &&
    !(o.exclusions.excludedFolders.any fun folder => folderMatch folder f.path) &&
    !(o.exclusions.excludedFileTypes.any fun ext =>
        (f.path.toLower).endsWith ext.toLower) &&
    !(o.exclusions.excludedFilePrefixes.any fun pre => f.name.startsWith pre)

/-- JavaScript `path.split('.').pop()`: the final piece of the split (the
split of a string is never empty, so `pop` always yields a value). -/
def lastSplitPiece (path : String) : String :=
  ((path.splitOn ".").getLast?).getD ""

/-- `InitialSyncManager.isExcluded`: the second, path-based exclusion pass of
`startSync` (folders without slash normalization, extension equality,
path-based prefixes, and path-based explicit files). -/
def isExcluded (o : InitialSyncOptions) (path : String) : Bool :=
  (o.exclusions.excludedFolders.any fun folder => path.startsWith folder) ||
  (!((lastSplitPiece path).toLower = "") &&
    o.exclusions.excludedFileTypes.contains ((lastSplitPiece path).toLower)) ||
  (o.exclusions.excludedFilePrefixes.any fun pre => path.startsWith pre) ||
  o.exclusions.excludedFiles.contains path

/-- One step of a stable descending insertion by priority. -/
def insertByPriority (rules : List PriorityRule) (f : VaultFile) :
    List VaultFile → List VaultFile
  | [] => [f]
  | g :: rest =>
    if getFilePriority rules g.path < getFilePriority rules f.path then f :: g :: rest
    else g :: insertByPriority rules f rest

/-- `InitialSyncManager.sortFilesByPriority`: descending by
`getFilePriority` (the source leaves tie order unspecified; the modern
JavaScript engine sort is stable, embedded here as a stable insertion
sort). -/
def sortFilesByPriority (rules : List PriorityRule) (files : List VaultFile) :
    List VaultFile :=
  files.foldr (insertByPriority rules) []

/-- `TaskType` of ProcessingTask.ts. -/
inductive TaskType
  | create
  | update
  | delete
deriving DecidableEq

/-- `TaskStatus` of ProcessingTask.ts (the statuses the embedded code
touches). -/
inductive TaskStatus
  | pending
  | queuedDuringInit
  | processing
  | completed
  | failed
deriving DecidableEq

/-- `ProcessingTask`: the queue's unit of work.  The opaque `metadata` /
`data` payloads are not interpreted by any embedded operation and are
omitted. -/
structure ProcessingTask where
  id : String
  type : TaskType
  priority : ℤ
  maxRetries : ℕ
  retryCount : ℕ
  createdAt : ℕ
  updatedAt : ℕ
  status : TaskStatus
deriving DecidableEq

/-- The value stored in `pendingFileMetadata` for a path (the opaque
extracted `metadata` record is omitted; `hash` and `lastModified` are what
the completion handlers read back). -/
structure PendingEntry where
  hash : String
  lastModified : ℕ
deriving DecidableEq

/-- The `pendingFileMetadata` JavaScript `Map`, as an insertion-ordered
association list. -/
abbrev PendingMap := List (String × PendingEntry)

/-- JavaScript `Map.get`. -/
def mapGet (m : PendingMap) (k : String) : Option PendingEntry :=
  (m.find? fun kv => kv.1 == k).map fun kv => kv.2

/-- JavaScript `Map.set`: overwrite in place, else append. -/
def mapSet (m : PendingMap) (k : String) (v : PendingEntry) : PendingMap :=
  if (m.find? fun kv => kv.1 == k).isSome then
    m.map fun kv => if kv.1 == k then (k, v) else kv
  else m ++ [(k, v)]

/-- JavaScript `Map.delete`. -/
def mapDelete (m : PendingMap) (k : String) : PendingMap :=
  m.filter fun kv => kv.1 != k

/-- Status codes written through `SyncFileManager.updateSyncStatus`. -/
inductive SyncCode
  | ok
  | failed
  | pending
deriving DecidableEq

/-- One `updateSyncStatus(fileId, code, hash and lastModified)` call. -/
structure SyncWrite where
  fileId : String
  code : SyncCode
  hash : String
  lastModified : ℕ
deriving DecidableEq

/-- The observable calls the scheduler makes on its collaborators, in order:
files handed to `processFile`, tasks handed to `QueueService.addTask`,
`SupabaseService.updateFileVectorizationStatus(..., 'pending')` calls (by
path), `SyncFileManager.updateSyncStatus` calls, and `ErrorHandler`
reports (by context string). -/
structure Trace where
  attempted : List String
  enqueued : List ProcessingTask
  supabaseStatusWrites : List String
  syncFileWrites : List SyncWrite
  errorReports : List String
deriving DecidableEq

def Trace.empty : Trace := ⟨[], [], [], [], []⟩

def Trace.append (a b : Trace) : Trace :=
  ⟨a.attempted ++ b.attempted, a.enqueued ++ b.enqueued,
   a.supabaseStatusWrites ++ b.supabaseStatusWrites,
   a.syncFileWrites ++ b.syncFileWrites, a.errorReports ++ b.errorReports⟩

/-- Outcome oracle for one file: whether `extractMetadata` throws, whether
the pending status write (remote or sync-file) rejects, whether
`QueueService.addTask` rejects, and the content hash that
`calculateFileHash` returns (that method catches internally and never
throws). -/
structure FileOutcome where
  extractThrows : Bool
  statusWriteThrows : Bool
  addTaskThrows : Bool
  contentHash : String

/-- Environment of one bulk run: the options, the configured remote vector
store with its reported record count (`none` when no `SupabaseService` is
configured), the per-file outcome oracle, and the measured wall-clock
duration of each batch by batch index. -/
structure SyncEnv where
  options : InitialSyncOptions
  supabaseFileCount : Option ℕ
  outcome : String → FileOutcome
  batchDurations : ℕ → ℚ

/-- Whether a remote vector store is configured. -/
def SyncEnv.hasSupabase (env : SyncEnv) : Bool := env.supabaseFileCount.isSome

/-- The error-report context both catch blocks use for a per-file failure. -/
def processFileContext : String := "InitialSyncManager.processFile"

/-- `InitialSyncManager.processFile`.  Returns the updated
`pendingFileMetadata`, the trace of collaborator calls, and whether the call
threw (after its own catch block ran: delete the pending entry, report, and
rethrow).  In source order: the reserved-path early return, metadata
extraction, hashing, recording the pending expectation, the pending status
write (remote store when configured, sync-file collaborator otherwise), and
enqueuing a CREATE task at the file's rule priority with `maxRetries := 3`. -/
def processFile (env : SyncEnv) (pending : PendingMap) (file : VaultFile) :
    PendingMap × Trace × Bool :=
  let base : Trace := { Trace.empty with attempted := [file.path] }
  if isSyncFile env.options file.path then (pending, base, false)
  else if (env.outcome file.path).extractThrows then
    (mapDelete pending file.path,
     { base with errorReports := [processFileContext] }, true)
  else
    let hash := (env.outcome file.path).contentHash
    let pending1 := mapSet pending file.path ⟨hash, file.mtime⟩
    let traced : Trace :=
      if env.hasSupabase then { base with supabaseStatusWrites := [file.path] }
      else
        { base with
            syncFileWrites := [⟨file.path, SyncCode.pending, hash, file.mtime⟩] }
    if (env.outcome file.path).statusWriteThrows then
      (mapDelete pending1 file.path,
       { traced with errorReports := [processFileContext] }, true)
    else if (env.outcome file.path).addTaskThrows then
      (mapDelete pending1 file.path,
       { traced with errorReports := [processFileContext] }, true)
    else
      (pending1,
       { traced with
           enqueued := [⟨file.path, TaskType.create,
             getFilePriority env.options.priorityRules file.path, 3, 0, 0, 0,
             TaskStatus.queuedDuringInit⟩] }, false)

/-- Whether `processFile` throws for this file under the oracle. -/
def fileThrows (env : SyncEnv) (file : VaultFile) : Bool :=
  !(isSyncFile env.options file.path) &&
    ((env.outcome file.path).extractThrows ||
      (env.outcome file.path).statusWriteThrows ||
      (env.outcome file.path).addTaskThrows)

/-- The per-file loop of `InitialSyncManager.processBatch`: each file is
processed inside its own try/catch, a failure is reported (the propagated
error is reported a second time by the loop's catch block) and the loop
moves on to the next file.  Returns the updated pending map, the combined
trace, and the number of files counted into `processedFiles`. -/
def processBatchFiles (env : SyncEnv) (pending : PendingMap) :
    List VaultFile → PendingMap × Trace × ℕ
  | [] => (pending, Trace.empty, 0)
  | f :: rest =>
    let r1 := processFile env pending f
    let extra : Trace :=
      if r1.2.2 then { Trace.empty with errorReports := [processFileContext] }
      else Trace.empty
    let r2 := processBatchFiles env r1.1 rest
    (r2.1, (r1.2.1.append extra).append r2.2.1, (if r1.2.2 then 0 else 1) + r2.2.2)

/-- Batch status values of `SyncBatch`. -/
inductive BatchStatus
  | pending
  | processing
  | completed
  | failed
deriving DecidableEq

/-- The result of `InitialSyncManager.processBatch` on one batch. -/
structure BatchResult where
  pending : PendingMap
  trace : Trace
  processedCount : ℕ
  status : BatchStatus
  duration : ℚ

/-- `InitialSyncManager.processBatch`: run the per-file loop, mark the batch
completed, and return the measured wall-clock duration (supplied by the
duration oracle, indexed by batch number). -/
def processBatch (env : SyncEnv) (pending : PendingMap) (files : List VaultFile)
    (batchIndex : ℕ) : BatchResult :=
  let r := processBatchFiles env pending files
  ⟨r.1, r.2.1, r.2.2, BatchStatus.completed, env.batchDurations batchIndex⟩

/-- The mutable scheduler state threaded through a bulk run. -/
structure RunState where
  pending : PendingMap
  adaptiveBatchSize : ℚ
  processedFiles : ℕ
  completedBatchCount : ℕ

/-- State at the start of a bulk run: empty expectation table,
`adaptiveBatchSize` reset to `options.batchSize`, counters reset. -/
def initRunState (env : SyncEnv) : RunState :=
  ⟨[], env.options.batchSize, 0, 0⟩

/-- The worker loop of `processFilesAdaptive` (claim a batch, process it,
feed the measured duration into `adjustBatchSize`, repeat), embedded as the
cooperative sequential schedule. -/
def runBatches (env : SyncEnv) (st : RunState) :
    List VaultFile → RunState × Trace
  | [] => (st, Trace.empty)
  | f :: rest =>
    let size := nextBatchSize env.options.throttling st.adaptiveBatchSize
      (f :: rest).length
    let batchFiles := (f :: rest).take size
    let r := processBatch env st.pending batchFiles st.completedBatchCount
    let newSize := adjustBatchSize env.options.throttling r.duration
      batchFiles.length st.adaptiveBatchSize
    let st2 : RunState :=
      ⟨r.pending, newSize, st.processedFiles + r.processedCount,
       st.completedBatchCount + 1⟩
    let tail := runBatches env st2 ((f :: rest).drop size)
    (tail.1, r.trace.append tail.2)
termination_by files => files.length
decreasing_by
  simp only [List.length_drop, List.length_cons]
  unfold nextBatchSize
  omega

/-- The observable result of `startSync`. -/
structure StartSyncResult where
  skipped : Bool
  finalState : RunState
  trace : Trace

/-- The body of `startSync` after the pre-flight check: exclusion filtering,
the second path-based exclusion pass, priority sort, and the adaptive batch
loop. -/
def startSyncRun (env : SyncEnv) (files : List VaultFile) : StartSyncResult :=
  let filtered := filterExcludedFiles env.options files
  let filesToSync := filtered.filter fun f => !(isExcluded env.options f.path)
  if filesToSync.isEmpty then ⟨false, initRunState env, Trace.empty⟩
  else
    let prioritized := sortFilesByPriority env.options.priorityRules filesToSync
    let r := runBatches env (initRunState env) prioritized
    ⟨false, r.1, r.2⟩

/-- `InitialSyncManager.startSync`: when a remote vector store is configured
and `getFileCount()` reports a non-zero count, the whole bulk run is skipped
before any file is touched; otherwise the run proceeds. -/
def startSync (env : SyncEnv) (files : List VaultFile) : StartSyncResult :=
  match env.supabaseFileCount with
  | some n =>
    if 0 < n then ⟨true, initRunState env, Trace.empty⟩
    else startSyncRun env files
  | none => startSyncRun env files

/-- The scheduler's `task-completed` handler (`handleTaskCompleted`): when
the task id has a pending expectation, delete it and — only when no remote
vector store is configured — write final status OK through the sync-file
collaborator, carrying the stored hash and lastModified. -/
def handleTaskCompleted (hasSupabase : Bool) (pending : PendingMap)
    (taskId : String) : PendingMap × List SyncWrite :=
  match mapGet pending taskId with
  | none => (pending, [])
  | some e =>
    (mapDelete pending taskId,
     if hasSupabase then [] else [⟨taskId, SyncCode.ok, e.hash, e.lastModified⟩])

/-- The scheduler's `task-failed` handler (`handleTaskFailed`): same shape as
completion, writing final status FAILED. -/
def handleTaskFailed (hasSupabase : Bool) (pending : PendingMap)
    (taskId : String) : PendingMap × List SyncWrite :=
  match mapGet pending taskId with
  | none => (pending, [])
  | some e =>
    (mapDelete pending taskId,
     if hasSupabase then []
     else [⟨taskId, SyncCode.failed, e.hash, e.lastModified⟩])

/-- Error raised by `QueueService.addTask` admission control
(`TaskProcessingError.QUEUE_FULL`). -/
inductive QueueError
  | queueFull
deriving DecidableEq

/-- Number of distinct task identities held in the queue. -/
def distinctIdCount (q : List ProcessingTask) : ℕ :=
  ((q.map fun t => t.id).dedup).length

/-- Replace the task with the given id in place, keeping queue positions. -/
def replaceTask (q : List ProcessingTask) (id : String) (t : ProcessingTask) :
    List ProcessingTask :=
  q.map fun x => if x.id == id then t else x

/-- Modelled from the spec: `QueueService.addTask`.  QueueService.ts itself
is missing from the included source (only src/tests/QueueService.edgeCases.test.ts
is present), so this follows the spec's queue contract: enqueuing fails with
`QueueFullError` when the queue already holds the configured maximum number
of distinct task identities; otherwise coalescing keyed by `task.id`
applies: no existing task for the id — insert as-is; existing DELETE — an
incoming mutation is dropped (the spec leaves an incoming DELETE over a
queued DELETE unspecified; it coalesces to the already queued DELETE here);
existing CREATE/UPDATE with incoming DELETE — the DELETE replaces the task
and its priority is boosted to the highest defined tier, 3 (the boost value
the repository's test asserts); both CREATE/UPDATE — last write wins,
keeping the higher of the two priorities. -/
def addTask (maxQueueSize : ℕ) (q : List ProcessingTask) (t : ProcessingTask) :
    Except QueueError (List ProcessingTask) :=
  if maxQueueSize ≤ distinctIdCount q then .error .queueFull
  else
    match q.find? (fun x => x.id == t.id) with
    | none => .ok (q ++ [t])
    | some existing =>
      if existing.type = TaskType.delete then .ok q
      else if t.type = TaskType.delete then
        .ok (replaceTask q t.id { t with priority := 3 })
      else
        .ok (replaceTask q t.id
          { t with priority := max existing.priority t.priority })

/-- One enqueue call observed from outside: a rejected call leaves the queue
unchanged. -/
def enqueueStep (maxQueueSize : ℕ) (q : List ProcessingTask)
    (t : ProcessingTask) : List ProcessingTask :=
  match addTask maxQueueSize q t with
  | .ok q2 => q2
  | .error _ => q

/-- Fold a sequence of enqueue calls from the empty queue. -/
def enqueueAll (maxQueueSize : ℕ) (ts : List ProcessingTask) :
    List ProcessingTask :=
  ts.foldl (enqueueStep maxQueueSize) []

/-- `OfflineOperation.operationType` values. -/
inductive OperationType
  | create
  | update
  | delete
deriving DecidableEq

/-- `OfflineOperation.status` values. -/
inductive OperationStatus
  | pending
  | processing
  | done
  | failed
deriving DecidableEq

/-- A persisted offline operation; the minimal replay metadata is flattened
into the stored content hash and last-modified time. -/
structure OfflineOperation where
  id : String
  fileId : String
  operationType : OperationType
  timestamp : ℕ
  contentHash : String
  lastModified : ℕ
  status : OperationStatus
deriving DecidableEq

/-- A call made to the remote vector store during replay. -/
inductive StoreCall
  | setPendingStatus (fileId : String) (contentHash : String) (lastModified : ℕ)
  | deleteRecord (fileId : String)
deriving DecidableEq

/-- The observable outcome of one `processQueue` pass: the surviving durable
queue, the calls made to the remote vector store, and the calls made to the
sync-file collaborator. -/
structure ReplayOutcome where
  remaining : List OfflineOperation
  storeCalls : List StoreCall
  syncFileWrites : List SyncWrite
deriving DecidableEq

/-- A pending DELETE operation. -/
def isPendingDelete (op : OfflineOperation) : Bool :=
  op.status == OperationStatus.pending &&
    op.operationType == OperationType.delete

/-- Modelled from the spec: `OfflineQueueManager.processQueue`.
OfflineQueueManager.ts itself is missing from the included source (only
src/tests/OfflineQueueManager.test.ts is present), so this follows the
spec's reconciliation contract, with connectivity read once at invocation
(`storeReachable`): pending operations are visited in insertion order; when
the remote store is reachable, a create/update replays as a pending
vectorization status write carrying the stored hash and modification time,
a delete replays through the store's deletion path, and the operation is
removed on successful replay and left pending on failure (`replayOk`
oracle); when the store is unreachable, a delete falls back to a sync-file
OK update and is removed, while create/update operations stay pending;
non-pending operations are left untouched. -/
def processQueue (storeReachable : Bool) (replayOk : String → Bool) :
    List OfflineOperation → ReplayOutcome
  | [] => ⟨[], [], []⟩
  | op :: rest =>
    let tail := processQueue storeReachable replayOk rest
    if op.status != OperationStatus.pending then
      ⟨op :: tail.remaining, tail.storeCalls, tail.syncFileWrites⟩
    else if storeReachable then
      let call :=
        match op.operationType with
        | OperationType.delete => StoreCall.deleteRecord op.fileId
        | _ => StoreCall.setPendingStatus op.fileId op.contentHash op.lastModified
      if replayOk op.id then
        ⟨tail.remaining, call :: tail.storeCalls, tail.syncFileWrites⟩
      else
        ⟨op :: tail.remaining, call :: tail.storeCalls, tail.syncFileWrites⟩
    else
      match op.operationType with
      | OperationType.delete =>
        ⟨tail.remaining, tail.storeCalls,
         ⟨op.fileId, SyncCode.ok, op.contentHash, op.lastModified⟩ ::
           tail.syncFileWrites⟩
      | _ => ⟨op :: tail.remaining, tail.storeCalls, tail.syncFileWrites⟩

/-- Concrete fixtures used by the witnesses. -/
def sampleExclusions : Exclusions := ⟨[], [], [], []⟩

def sampleOptions : InitialSyncOptions :=
  ⟨50, 3, [], "_obsidianragsync.md", sampleExclusions, defaultThrottling⟩

def sampleOutcomeOk : FileOutcome := ⟨false, false, false, "abc"⟩

def sampleEnvSkip : SyncEnv :=
  ⟨sampleOptions, some 1, fun _ => sampleOutcomeOk, fun _ => 1000⟩

def sampleEnvThrow : SyncEnv :=
  ⟨sampleOptions, none, fun _ => ⟨true, false, false, "h"⟩, fun _ => 1000⟩

def samplePending : PendingMap := [("Note.md", ⟨"abc", 123⟩)]

def sampleTask (id : String) (ty : TaskType) : ProcessingTask :=
  ⟨id, ty, 1, 3, 0, 0, 0, TaskStatus.pending⟩

theorem mapGet_mapDelete (m : PendingMap) (k : String) :
    mapGet (mapDelete m k) k = none := by
  have h : (mapDelete m k).find? (fun kv => kv.1 == k) = none := by
    rw [List.find?_eq_none]
    intro kv hkv
    have hmem := List.of_mem_filter hkv
    simp only [bne_iff_ne, ne_eq] at hmem
    simp [hmem]
  rw [mapGet, h]
  rfl

theorem one_le_nextBatchSize (t : ThrottlingControls) (s : ℚ) (r : ℕ) :
    1 ≤ nextBatchSize t s r := by
  unfold nextBatchSize
  omega

theorem nextBatchSize_le (t : ThrottlingControls) (s : ℚ) (r : ℕ)
    (hmax : 1 ≤ t.maxBatchSize) :
    (nextBatchSize t s r : ℤ) ≤ t.maxBatchSize := by
  unfold nextBatchSize
  generalize jsRound s = j
  omega

theorem getBatches_nil {α : Type} (t : ThrottlingControls) (traj : ℕ → ℚ) (k : ℕ) :
    getBatches t traj k ([] : List α) = [] := by
  rw [getBatches]

theorem getBatches_cons {α : Type} (t : ThrottlingControls) (traj : ℕ → ℚ) (k : ℕ)
    (f : α) (rest : List α) :
    getBatches t traj k (f :: rest) =
      (f :: rest).take (nextBatchSize t (traj k) (f :: rest).length) ::
        getBatches t traj (k + 1)
          ((f :: rest).drop (nextBatchSize t (traj k) (f :: rest).length)) := by
  rw [getBatches]

/-- Claim C3 (counterexample): the claim as stated fails at measured duration
0 ms.  A batch that completes within the same millisecond tick has duration
`0 < 0.6 * target`, so the claim demands the next size
`min(maxBatchSize, round(50 * 1.25)) = 63`, but `adjustBatchSize` returns
early on non-positive durations and leaves the size at 50. -/
theorem C3_counterexample :
    (0 : ℚ) < defaultThrottling.targetBatchDurationMs * (3 / 5) ∧
    adjustBatchSize defaultThrottling 0 1 (50 : ℚ) ≠
      min ((defaultThrottling.maxBatchSize : ℤ) : ℚ)
        ((jsRound ((50 : ℚ) * (5 / 4)) : ℤ) : ℚ) := by
  constructor
  · norm_num [defaultThrottling]
  · norm_num [adjustBatchSize, defaultThrottling, jsRound]

/-- Claim C3 (amended): for every completed nonempty batch with positive
measured duration `d` and previous adaptive batch size `p` that is an
integer within the configured `[minBatchSize, maxBatchSize]` range (with
`minBatchSize ≥ 1`), the next adaptive batch size equals
`min(maxBatchSize, round(p * 1.25))` when `d < 0.6 * target`, equals
`max(minBatchSize, round(p * 0.8))` when `d > 1.4 * target`, and equals `p`
otherwise. -/
theorem C3_adjustBatchSize (t : ThrottlingControls) (d : ℚ) (pc : ℕ) (p : ℤ)
    (hmin : 1 ≤ t.minBatchSize) (hlo : t.minBatchSize ≤ p) (hhi : p ≤ t.maxBatchSize)
    (hd : 0 < d) (hpc : 0 < pc) :
    adjustBatchSize t d pc (p : ℚ) =
      if d < t.targetBatchDurationMs * (3 / 5) then
        min (t.maxBatchSize : ℚ) ((jsRound ((p : ℚ) * (5 / 4)) : ℤ) : ℚ)
      else if d > t.targetBatchDurationMs * (7 / 5) then
        max (t.minBatchSize : ℚ) ((jsRound ((p : ℚ) * (4 / 5)) : ℤ) : ℚ)
      else (p : ℚ) := by
  have hp1 : (1 : ℤ) ≤ p := le_trans hmin hlo
  have hp1q : (1 : ℚ) ≤ (p : ℚ) := by exact_mod_cast hp1
  have hr1 : p ≤ jsRound ((p : ℚ) * (5 / 4)) := by
    rw [jsRound, Int.le_floor]
    linarith
  have hr1q : (1 : ℚ) ≤ ((jsRound ((p : ℚ) * (5 / 4)) : ℤ) : ℚ) := by
    exact_mod_cast le_trans hp1 hr1
  have hr2 : jsRound ((p : ℚ) * (4 / 5)) ≤ p := by
    have hlt : ((p : ℚ) * (4 / 5) + 1 / 2) < ((p + 1 : ℤ) : ℚ) := by push_cast; linarith
    have h2 := Int.floor_lt.mpr hlt
    rw [jsRound]
    omega
  have hr2q : (1 : ℚ) ≤ ((jsRound ((p : ℚ) * (4 / 5)) : ℤ) : ℚ) := by
    have : (1 : ℤ) ≤ jsRound ((p : ℚ) * (4 / 5)) := by
      rw [jsRound, Int.le_floor]
      push_cast
      linarith
    exact_mod_cast this
  unfold adjustBatchSize
  rw [if_neg (by simp [hpc.ne', hd.not_le])]
  by_cases h1 : d < t.targetBatchDurationMs * (3 / 5)
  · rw [if_pos h1]
    by_cases h2 : (p : ℚ) < (t.maxBatchSize : ℚ)
    · rw [if_pos ⟨h1, h2⟩, max_eq_right hr1q]
    · have hpe : (p : ℚ) = ((t.maxBatchSize : ℤ) : ℚ) :=
        le_antisymm (by exact_mod_cast hhi) (not_lt.mp h2)
      have ht : 0 < t.targetBatchDurationMs := by nlinarith
      have h3 : ¬ d > t.targetBatchDurationMs * (7 / 5) := by
        push_neg
        nlinarith
      rw [if_neg (fun hc => h2 hc.2), if_neg (fun hc => h3 hc.1)]
      rw [min_eq_left (by rw [← hpe]; exact_mod_cast hr1)]
      exact hpe
  · rw [if_neg h1, if_neg (fun hc => h1 hc.1)]
    by_cases h3 : d > t.targetBatchDurationMs * (7 / 5)
    · rw [if_pos h3]
      by_cases h4 : (p : ℚ) > (t.minBatchSize : ℚ)
      · rw [if_pos ⟨h3, h4⟩, max_eq_right hr2q]
      · have hpe : (p : ℚ) = ((t.minBatchSize : ℤ) : ℚ) :=
          le_antisymm (not_lt.mp h4) (by exact_mod_cast hlo)
        rw [if_neg (fun hc => h4 hc.2)]
        rw [max_eq_left (by rw [← hpe]; exact_mod_cast hr2)]
        exact hpe
    · rw [if_neg h3, if_neg (fun hc => h3 hc.1)]

/-- Claim C3 witness: with the default throttling controls (target 2000 ms)
and previous size 50, a 1000 ms batch yields 63 and a 3200 ms batch yields
40, via the amended theorem. -/
theorem C3_witness :
    adjustBatchSize defaultThrottling 1000 1 (50 : ℚ) = 63 ∧
    adjustBatchSize defaultThrottling 3200 1 (50 : ℚ) = 40 := by
  have h1 := C3_adjustBatchSize defaultThrottling 1000 1 50
    (by norm_num [defaultThrottling]) (by norm_num [defaultThrottling])
    (by norm_num [defaultThrottling]) (by norm_num) (by norm_num)
  have h2 := C3_adjustBatchSize defaultThrottling 3200 1 50
    (by norm_num [defaultThrottling]) (by norm_num [defaultThrottling])
    (by norm_num [defaultThrottling]) (by norm_num) (by norm_num)
  push_cast at h1 h2
  constructor
  · rw [h1]
    norm_num [defaultThrottling, jsRound]
  · rw [h2]
    norm_num [defaultThrottling, jsRound]

/-- Claim C9: for every input file list, every trajectory of the adaptive
batch size, and hence every value of `maxConcurrentBatches`, the claimed
batches exactly partition the input list in order (their concatenation is the
input list, so every file lands in exactly one batch), and every batch holds
at least 1 and at most `maxBatchSize` files. -/
theorem C9_adaptive_partitioning {α : Type} (t : ThrottlingControls) (traj : ℕ → ℚ)
    (k : ℕ) (files : List α) (hmax : 1 ≤ t.maxBatchSize) :
    (getBatches t traj k files).flatten = files ∧
    ∀ b ∈ getBatches t traj k files, 1 ≤ b.length ∧ (b.length : ℤ) ≤ t.maxBatchSize := by
  suffices h : ∀ (n : ℕ) (l : List α) (j : ℕ), l.length ≤ n →
      (getBatches t traj j l).flatten = l ∧
      ∀ b ∈ getBatches t traj j l, 1 ≤ b.length ∧ (b.length : ℤ) ≤ t.maxBatchSize by
    exact h files.length files k le_rfl
  intro n
  induction n with
  | zero =>
    intro l j hn
    have hl : l = [] := by simpa [List.length_eq_zero] using Nat.le_zero.mp hn
    subst hl
    simp [getBatches_nil]
  | succ n ih =>
    intro l j hn
    rcases l with _ | ⟨f, rest⟩
    · simp [getBatches_nil]
    · have h1 : 1 ≤ nextBatchSize t (traj j) (rest.length + 1) :=
        one_le_nextBatchSize t (traj j) _
      have hle := nextBatchSize_le t (traj j) (rest.length + 1) hmax
      simp only [List.length_cons] at hn
      rw [getBatches_cons t traj j f rest]
      simp only [List.length_cons]
      obtain ⟨ihjoin, ihmem⟩ :=
        ih ((f :: rest).drop (nextBatchSize t (traj j) (rest.length + 1))) (j + 1)
          (by simp only [List.length_drop, List.length_cons]; omega)
      refine ⟨?_, ?_⟩
      · simp only [List.flatten_cons, ihjoin, List.take_append_drop]
      · intro b hb
        rcases List.mem_cons.mp hb with hb | hb
        · subst hb
          refine ⟨?_, ?_⟩ <;> simp only [List.length_take, List.length_cons] <;> omega
        · exact ihmem b hb

/-- Claim C9 witness: a concrete three-file list under the default throttling
controls is partitioned back to itself. -/
theorem C9_witness :
    (1 : ℤ) ≤ defaultThrottling.maxBatchSize ∧
    (getBatches defaultThrottling (fun _ => 50) 0 [0, 1, 2]).flatten = [0, 1, 2] :=
  ⟨by norm_num [defaultThrottling],
   (C9_adaptive_partitioning defaultThrottling (fun _ => 50) 0 [0, 1, 2]
      (by norm_num [defaultThrottling])).1⟩

theorem processFile_attempted (env : SyncEnv) (pending : PendingMap)
    (f : VaultFile) :
    (processFile env pending f).2.1.attempted = [f.path] := by
  by_cases h1 : isSyncFile env.options f.path = true
  · simp [processFile, h1]
  · by_cases h2 : (env.outcome f.path).extractThrows = true
    · simp [processFile, h1, h2]
    · by_cases h3 : (env.outcome f.path).statusWriteThrows = true
      · by_cases h5 : env.hasSupabase = true <;>
          simp [processFile, h1, h2, h3, h5]
      · by_cases h4 : (env.outcome f.path).addTaskThrows = true <;>
          by_cases h5 : env.hasSupabase = true <;>
            simp [processFile, h1, h2, h3, h4, h5]

theorem processFile_threw (env : SyncEnv) (pending : PendingMap)
    (f : VaultFile) :
    (processFile env pending f).2.2 = fileThrows env f := by
  by_cases h1 : isSyncFile env.options f.path = true
  · simp [processFile, fileThrows, h1]
  · by_cases h2 : (env.outcome f.path).extractThrows = true
    · simp [processFile, fileThrows, h1, h2]
    · by_cases h3 : (env.outcome f.path).statusWriteThrows = true
      · simp [processFile, fileThrows, h1, h2, h3]
      · by_cases h4 : (env.outcome f.path).addTaskThrows = true <;>
          simp [processFile, fileThrows, h1, h2, h3, h4]

theorem processFile_reports (env : SyncEnv) (pending : PendingMap)
    (f : VaultFile) :
    (processFile env pending f).2.1.errorReports =
      if fileThrows env f then [processFileContext] else [] := by
  by_cases h1 : isSyncFile env.options f.path = true
  · simp [processFile, fileThrows, h1, Trace.empty]
  · by_cases h2 : (env.outcome f.path).extractThrows = true
    · simp [processFile, fileThrows, h1, h2, Trace.empty]
    · by_cases h3 : (env.outcome f.path).statusWriteThrows = true
      · by_cases h5 : env.hasSupabase = true <;>
          simp [processFile, fileThrows, h1, h2, h3, h5, Trace.empty]
      · by_cases h4 : (env.outcome f.path).addTaskThrows = true <;>
          by_cases h5 : env.hasSupabase = true <;>
            simp [processFile, fileThrows, h1, h2, h3, h4, h5, Trace.empty]

theorem processBatchFiles_spec (env : SyncEnv) (files : List VaultFile) :
    ∀ pending : PendingMap,
      (processBatchFiles env pending files).2.1.attempted =
        files.map (fun f => f.path) ∧
      (processBatchFiles env pending files).2.1.errorReports.length =
        2 * files.countP (fun f => fileThrows env f) := by
  induction files with
  | nil =>
    intro pending
    simp [processBatchFiles, Trace.empty]
  | cons f rest ih =>
    intro pending
    obtain ⟨ha, he⟩ := ih (processFile env pending f).1
    have hat := processFile_attempted env pending f
    have her := processFile_reports env pending f
    have hth := processFile_threw env pending f
    unfold processBatchFiles
    simp only [Trace.append, List.map_cons, List.countP_cons]
    rw [hth]
    constructor
    · cases hb : fileThrows env f <;>
        simp [hat, ha, Trace.empty]
    · cases hb : fileThrows env f
      · rw [hb] at her
        simp [her, he, Trace.empty]
      · rw [hb] at her
        simp [her, he, Trace.empty]
        ring

/-- Claim C5: whenever a remote vector store is configured and reports a
non-zero record count for the isolation scope, `startSync` skips the bulk
run entirely: the result is the skip result, no file is attempted, no task
is enqueued and no status write of either kind happens, regardless of the
input file set. -/
theorem C5_bulk_skip_on_nonzero_count (env : SyncEnv) (files : List VaultFile)
    (n : ℕ) (hcfg : env.supabaseFileCount = some n) (hn : 0 < n) :
    startSync env files = ⟨true, initRunState env, Trace.empty⟩ ∧
    (startSync env files).trace.attempted = [] ∧
    (startSync env files).trace.enqueued = [] ∧
    (startSync env files).trace.supabaseStatusWrites = [] ∧
    (startSync env files).trace.syncFileWrites = [] := by
  have h : startSync env files = ⟨true, initRunState env, Trace.empty⟩ := by
    unfold startSync
    rw [hcfg]
    simp [hn]
  refine ⟨h, ?_, ?_, ?_, ?_⟩ <;> rw [h]
  all_goals rfl

/-- Claim C5 witness: a configured remote store reporting one record skips a
concrete one-file run without enqueuing anything. -/
theorem C5_witness :
    sampleEnvSkip.supabaseFileCount = some 1 ∧
    (startSync sampleEnvSkip [⟨"Note.md", "Note.md", 123⟩]).trace.enqueued = [] :=
  ⟨rfl,
   (C5_bulk_skip_on_nonzero_count sampleEnvSkip [⟨"Note.md", "Note.md", 123⟩] 1
      rfl (by norm_num)).2.2.1⟩

/-- Claim C6: for every `task-completed` or `task-failed` event whose task id
has a pending expectation, the scheduler removes the entry, and the
sync-file collaborator receives the final OK (on completion) or FAILED (on
failure) status carrying the stored hash and lastModified exactly when no
remote vector store is configured. -/
theorem C6_completion_clears_pending (hasSupabase : Bool) (pending : PendingMap)
    (taskId : String) (e : PendingEntry) (h : mapGet pending taskId = some e) :
    (handleTaskCompleted hasSupabase pending taskId).1 = mapDelete pending taskId ∧
    (handleTaskFailed hasSupabase pending taskId).1 = mapDelete pending taskId ∧
    mapGet (handleTaskCompleted hasSupabase pending taskId).1 taskId = none ∧
    mapGet (handleTaskFailed hasSupabase pending taskId).1 taskId = none ∧
    ((handleTaskCompleted hasSupabase pending taskId).2 =
        [⟨taskId, SyncCode.ok, e.hash, e.lastModified⟩] ↔ hasSupabase = false) ∧
    ((handleTaskFailed hasSupabase pending taskId).2 =
        [⟨taskId, SyncCode.failed, e.hash, e.lastModified⟩] ↔
      hasSupabase = false) := by
  unfold handleTaskCompleted handleTaskFailed
  rw [h]
  cases hasSupabase <;> simp [mapGet_mapDelete]

/-- Claim C6 witness: a concrete pending entry for `Note.md` is cleared on
completion with no remote store configured. -/
theorem C6_witness :
    mapGet samplePending "Note.md" = some ⟨"abc", 123⟩ ∧
    mapGet (handleTaskCompleted false samplePending "Note.md").1 "Note.md" =
      none :=
  ⟨rfl,
   (C6_completion_clears_pending false samplePending "Note.md" ⟨"abc", 123⟩
      rfl).2.2.1⟩

/-- Claim C7: for every batch and every outcome oracle (so in particular
whenever processing any single file throws), `processBatch` attempts every
file of the batch in order, reports each per-file failure through the error
collaborator (twice: once in `processFile`'s catch block and once in the
batch loop's), completes the batch, and reports the measured duration. -/
theorem C7_partial_batch_failure_tolerance (env : SyncEnv) (pending : PendingMap)
    (files : List VaultFile) (k : ℕ) :
    (processBatch env pending files k).status = BatchStatus.completed ∧
    (processBatch env pending files k).duration = env.batchDurations k ∧
    (processBatch env pending files k).trace.attempted =
      files.map (fun f => f.path) ∧
    (processBatch env pending files k).trace.errorReports.length =
      2 * files.countP (fun f => fileThrows env f) := by
  obtain ⟨ha, he⟩ := processBatchFiles_spec env files pending
  exact ⟨rfl, rfl, ha, he⟩

/-- Claim C10: whenever `processFile` throws for a file, the pending
expectation for that file's path is absent from the resulting table — the
catch block deletes it before the error propagates. -/
theorem C10_pending_cleared_on_throw (env : SyncEnv) (pending : PendingMap)
    (file : VaultFile) (h : (processFile env pending file).2.2 = true) :
    mapGet (processFile env pending file).1 file.path = none := by
  by_cases h1 : isSyncFile env.options file.path = true
  · simp [processFile, h1] at h
  · by_cases h2 : (env.outcome file.path).extractThrows = true
    · simp [processFile, h1, h2, mapGet_mapDelete]
    · by_cases h3 : (env.outcome file.path).statusWriteThrows = true
      · simp [processFile, h1, h2, h3, mapGet_mapDelete]
      · by_cases h4 : (env.outcome file.path).addTaskThrows = true
        · simp [processFile, h1, h2, h3, h4, mapGet_mapDelete]
        · simp [processFile, h1, h2, h3, h4] at h

/-- Claim C10 witness: a metadata-extraction failure on a concrete file
leaves no pending entry behind, even when one was present beforehand. -/
theorem C10_witness :
    (processFile sampleEnvThrow samplePending ⟨"Note.md", "Note.md", 1⟩).2.2 =
      true ∧
    mapGet (processFile sampleEnvThrow samplePending
      ⟨"Note.md", "Note.md", 1⟩).1 "Note.md" = none := by
  have h : (processFile sampleEnvThrow samplePending
      ⟨"Note.md", "Note.md", 1⟩).2.2 = true := by rfl
  exact ⟨h,
    C10_pending_cleared_on_throw sampleEnvThrow samplePending
      ⟨"Note.md", "Note.md", 1⟩ h⟩

theorem replaceTask_ids (q : List ProcessingTask) (id2 : String)
    (repl : ProcessingTask) (hrepl : repl.id = id2) :
    (replaceTask q id2 repl).map (fun x => x.id) = q.map (fun x => x.id) := by
  unfold replaceTask
  rw [List.map_map]
  apply List.map_congr_left
  intro x _
  by_cases hid : x.id = id2
  · simp [Function.comp, hid, hrepl]
  · simp [Function.comp, hid]

theorem find?_replaceTask (q : List ProcessingTask) (id2 : String)
    (repl : ProcessingTask) (hrepl : repl.id = id2) (ex : ProcessingTask)
    (h : q.find? (fun x => x.id == id2) = some ex) :
    (replaceTask q id2 repl).find? (fun x => x.id == id2) = some repl := by
  induction q with
  | nil => simp at h
  | cons a rest ih =>
    by_cases ha : a.id = id2
    · have hhead : replaceTask (a :: rest) id2 repl =
          repl :: replaceTask rest id2 repl := by
        unfold replaceTask
        simp [ha]
      rw [hhead, List.find?_cons_of_pos _ (by simp [hrepl])]
    · have hhead : replaceTask (a :: rest) id2 repl =
          a :: replaceTask rest id2 repl := by
        unfold replaceTask
        simp [ha]
      rw [List.find?_cons_of_neg _ (by simp [ha])] at h
      rw [hhead, List.find?_cons_of_neg _ (by simp [ha])]
      exact ih h

theorem mem_replaceTask_of_ne (q : List ProcessingTask) (id2 : String)
    (repl x : ProcessingTask) (hx : x ∈ q) (hne : x.id ≠ id2) :
    x ∈ replaceTask q id2 repl := by
  unfold replaceTask
  refine List.mem_map.mpr ⟨x, hx, ?_⟩
  simp [hne]

theorem addTask_ok_ids (maxQ : ℕ) (q q2 : List ProcessingTask)
    (t : ProcessingTask) (h : addTask maxQ q t = .ok q2) :
    q2.map (fun x => x.id) = q.map (fun x => x.id) ∨
      (q2.map (fun x => x.id) = q.map (fun x => x.id) ++ [t.id] ∧
        ∀ x ∈ q, x.id ≠ t.id) := by
  unfold addTask at h
  by_cases hfull : maxQ ≤ distinctIdCount q
  · rw [if_pos hfull] at h
    exact absurd h (by simp)
  · rw [if_neg hfull] at h
    split at h
    · rename_i hfind
      simp only [Except.ok.injEq] at h
      subst h
      right
      constructor
      · simp
      · intro x hx
        have hnone := List.find?_eq_none.mp hfind x hx
        simpa using hnone
    · rename_i ex hfind
      left
      split at h
      · simp only [Except.ok.injEq] at h
        subst h
        rfl
      · split at h <;> simp only [Except.ok.injEq] at h <;> subst h <;>
          exact replaceTask_ids q t.id _ rfl

theorem enqueueStep_nodup (maxQ : ℕ) (q : List ProcessingTask)
    (t : ProcessingTask) (hq : (q.map fun x => x.id).Nodup) :
    ((enqueueStep maxQ q t).map fun x => x.id).Nodup := by
  unfold enqueueStep
  cases ha : addTask maxQ q t with
  | error e => exact hq
  | ok q2 =>
    rcases addTask_ok_ids maxQ q q2 t ha with h | ⟨h, hnotin⟩
    · rw [h]
      exact hq
    · rw [h, List.nodup_append]
      refine ⟨hq, List.nodup_singleton _, ?_⟩
      intro a ha2 hb
      simp only [List.mem_singleton] at hb
      subst hb
      obtain ⟨x, hx, hxid⟩ := List.mem_map.mp ha2
      exact hnotin x hx hxid

/-- Claim C1: across every sequence of enqueue calls the queue holds at most
one live task per document identity (the identity list stays duplicate
free); with room in the queue, an incoming CREATE or UPDATE arriving while a
DELETE for the identity is queued is dropped and the queue — hence the
DELETE — is unchanged; and an incoming DELETE arriving while a CREATE or
UPDATE for the identity is queued results in a queue whose task for that
identity is the DELETE, so the DELETE is never reordered behind the
mutation. -/
theorem C1_at_most_one_task_per_identity (maxQ : ℕ) :
    (∀ ts : List ProcessingTask,
      ((enqueueAll maxQ ts).map fun x => x.id).Nodup) ∧
    (∀ (q : List ProcessingTask) (t ex : ProcessingTask),
      distinctIdCount q < maxQ →
      q.find? (fun x => x.id == t.id) = some ex →
      ex.type = TaskType.delete → t.type ≠ TaskType.delete →
      addTask maxQ q t = .ok q) ∧
    (∀ (q : List ProcessingTask) (t ex : ProcessingTask),
      distinctIdCount q < maxQ →
      q.find? (fun x => x.id == t.id) = some ex →
      ex.type ≠ TaskType.delete → t.type = TaskType.delete →
      ∃ q2, addTask maxQ q t = .ok q2 ∧
        ∃ d, q2.find? (fun x => x.id == t.id) = some d ∧
          d.type = TaskType.delete) := by
  refine ⟨?_, ?_, ?_⟩
  · intro ts
    suffices h : ∀ q : List ProcessingTask, (q.map fun x => x.id).Nodup →
        ((ts.foldl (enqueueStep maxQ) q).map fun x => x.id).Nodup by
      exact h [] (by simp)
    induction ts with
    | nil => intro q hq; simpa using hq
    | cons t rest ih =>
      intro q hq
      simp only [List.foldl_cons]
      exact ih _ (enqueueStep_nodup maxQ q t hq)
  · intro q t ex hroom hfind hex ht
    unfold addTask
    rw [if_neg (not_le.mpr hroom)]
    split
    · rename_i hnone
      rw [hfind] at hnone
      cases hnone
    · rename_i ex2 hsome
      rw [hfind] at hsome
      injection hsome with hsome
      subst hsome
      rw [if_pos hex]
  · intro q t ex hroom hfind hex ht
    unfold addTask
    rw [if_neg (not_le.mpr hroom)]
    split
    · rename_i hnone
      rw [hfind] at hnone
      cases hnone
    · rename_i ex2 hsome
      rw [hfind] at hsome
      injection hsome with hsome
      subst hsome
      rw [if_neg hex, if_pos ht]
      exact ⟨_, rfl, { t with priority := 3 },
        find?_replaceTask q t.id _ rfl ex hfind, ht⟩

/-- Claim C1 witness: an UPDATE for `Note.md` arriving while a DELETE for
`Note.md` is queued is dropped, the DELETE remaining. -/
theorem C1_witness :
    addTask 1000 [sampleTask "Note.md" TaskType.delete]
        (sampleTask "Note.md" TaskType.update) =
      .ok [sampleTask "Note.md" TaskType.delete] :=
  (C1_at_most_one_task_per_identity 1000).2.1
    [sampleTask "Note.md" TaskType.delete]
    (sampleTask "Note.md" TaskType.update)
    (sampleTask "Note.md" TaskType.delete)
    (by decide) (by decide) rfl (by decide)

/-- Claim C2: `addTask` rejects with `QueueFullError` exactly when the queue
already holds at least the configured maximum number of distinct task
identities, and every enqueue made while the count is below the limit
succeeds (never fails for that reason — `QueueFullError` is the model's only
failure). -/
theorem C2_queue_full_admission (maxQ : ℕ) (q : List ProcessingTask)
    (t : ProcessingTask) :
    (addTask maxQ q t = .error QueueError.queueFull ↔
      maxQ ≤ distinctIdCount q) ∧
    (distinctIdCount q < maxQ → ∃ q2, addTask maxQ q t = .ok q2) := by
  have hok : distinctIdCount q < maxQ → ∃ q2, addTask maxQ q t = .ok q2 := by
    intro h
    unfold addTask
    rw [if_neg (not_le.mpr h)]
    split
    · exact ⟨_, rfl⟩
    · split
      · exact ⟨_, rfl⟩
      · split
        · exact ⟨_, rfl⟩
        · exact ⟨_, rfl⟩
  refine ⟨⟨fun h => ?_, fun h => by unfold addTask; rw [if_pos h]⟩, hok⟩
  by_contra hfull
  obtain ⟨q2, hq2⟩ := hok (not_le.mp hfull)
  rw [hq2] at h
  exact absurd h (by simp)

/-- Claim C2 witness: an enqueue into an empty queue with the 1000-identity
bound succeeds. -/
theorem C2_witness :
    distinctIdCount [] < 1000 ∧
    ∃ q2, addTask 1000 [] (sampleTask "Note.md" TaskType.create) = .ok q2 :=
  ⟨by decide,
   (C2_queue_full_admission 1000 [] (sampleTask "Note.md" TaskType.create)).2
     (by decide)⟩

/-- Claim C4: whenever a DELETE is enqueued while a CREATE or UPDATE for the
same identity is queued (and the queue has room), the DELETE replaces the
existing task in place — same queue length, all other tasks untouched — and
the stored task for the identity is the DELETE with its priority set to the
boosted highest defined tier, 3. -/
theorem C4_delete_replaces_with_boost (maxQ : ℕ) (q : List ProcessingTask)
    (t ex : ProcessingTask) (hroom : distinctIdCount q < maxQ)
    (hfind : q.find? (fun x => x.id == t.id) = some ex)
    (hex : ex.type ≠ TaskType.delete) (ht : t.type = TaskType.delete) :
    addTask maxQ q t = .ok (replaceTask q t.id { t with priority := 3 }) ∧
    (replaceTask q t.id { t with priority := 3 }).find?
        (fun x => x.id == t.id) = some { t with priority := 3 } ∧
    ({ t with priority := 3 } : ProcessingTask).type = TaskType.delete ∧
    ({ t with priority := 3 } : ProcessingTask).priority = 3 ∧
    (replaceTask q t.id { t with priority := 3 }).length = q.length ∧
    ∀ x ∈ q, x.id ≠ t.id → x ∈ replaceTask q t.id { t with priority := 3 } := by
  refine ⟨?_, find?_replaceTask q t.id _ rfl ex hfind, ht, rfl,
    List.length_map q _, fun x hx hne => mem_replaceTask_of_ne q t.id _ x hx hne⟩
  unfold addTask
  rw [if_neg (not_le.mpr hroom)]
  split
  · rename_i hnone
    rw [hfind] at hnone
    cases hnone
  · rename_i ex2 hsome
    rw [hfind] at hsome
    injection hsome with hsome
    subst hsome
    rw [if_neg hex, if_pos ht]

/-- Claim C4 witness: a DELETE for `Note.md` replacing a queued CREATE ends
up stored with priority 3. -/
theorem C4_witness :
    addTask 1000 [sampleTask "Note.md" TaskType.create]
        (sampleTask "Note.md" TaskType.delete) =
      .ok (replaceTask [sampleTask "Note.md" TaskType.create] "Note.md"
        { sampleTask "Note.md" TaskType.delete with priority := 3 }) :=
  (C4_delete_replaces_with_boost 1000 [sampleTask "Note.md" TaskType.create]
    (sampleTask "Note.md" TaskType.delete) (sampleTask "Note.md" TaskType.create)
    (by decide) (by decide) (by decide) rfl).1

/-- Claim C8: replaying the durable queue while the remote vector store is
unreachable makes no remote-store call at all; it produces exactly one
sync-file OK write per pending DELETE operation, in queue order, carrying the
operation's stored hash and last-modified time; and exactly the pending
DELETE operations are removed from the durable queue. -/
theorem C8_offline_delete_replay (replayOk : String → Bool)
    (q : List OfflineOperation) :
    (processQueue false replayOk q).storeCalls = [] ∧
    (processQueue false replayOk q).syncFileWrites =
      (q.filter isPendingDelete).map
        (fun op => ⟨op.fileId, SyncCode.ok, op.contentHash, op.lastModified⟩) ∧
    (processQueue false replayOk q).remaining =
      q.filter (fun op => !(isPendingDelete op)) := by
  induction q with
  | nil => exact ⟨rfl, rfl, rfl⟩
  | cons op rest ih =>
    obtain ⟨h1, h2, h3⟩ := ih
    unfold processQueue
    by_cases hp : op.status = OperationStatus.pending
    · cases hop : op.operationType <;>
        simp [hp, hop, isPendingDelete, h1, h2, h3]
    · simp [hp, isPendingDelete, h1, h2, h3]

end ObsidianRAG
